import Mathlib

/-!
Shallow embedding of `src/ex13/src/graph.rs` (road-network graph loader,
cost models and largest-connected-component search).

Modelling conventions:
* Rust `usize`/`u64` values are `Nat`; both parse with an upper bound of
  `2^64 - 1`, mirroring `from_str`'s overflow failure.
* Rust strings are handled as `List Char`; `str::trim` and `str::split(' ')`
  are reimplemented below (`trimChars`, `splitChar`).
* `f64` fields (`latitude`, `longitude`) are never consumed by any operation
  of this core, so nodes store the accepted literal text and float parsing is
  modelled by a recognizer of Rust's `f64::from_str` grammar (`isF64Lit`).
* The float expression `(distance as f64) * 3.6 / (speed as f64)` truncated
  to `u64` is modelled exactly over `Nat` as `distance * 36 / (10 * speed)`.
* Fallible paths return an `Outcome`: `.error` models `Err(...)`, `.panic`
  models a Rust panic (the only panics reachable in this code are
  out-of-bounds `Vec` indexing).
* `&mut self` methods become functions `Graph -> ... -> Graph` (or a state
  record for the reader, whose `line_number` counters are local per call).
* The Rust BFS uses `HashSet` frontiers with arbitrary drain order; the model
  uses lists with insert-if-absent, which realizes one admissible order (the
  marker-array discipline makes the final marking order-independent).
-/

namespace Ex13

/-- `enum Error` of graph.rs.  The payloads of `IoError`, `ParseIntError`,
`ParseFloatError` and `ZipError` are opaque library values that the program
never inspects, so the model keeps only the variant. -/
inductive Error where
  | FormatError (message : String)
  | IoError
  | ParseIntError
  | ParseFloatError
  | ZipError
deriving Repr, DecidableEq

/-- Result of running a fallible/panicking piece of Rust code. -/
inductive Outcome (α : Type) where
  | ok (value : α)
  | error (e : Error)
  | panic (message : String)
deriving Repr, DecidableEq

/-- `struct Arc` (field order as in the source). -/
structure Arc where
  head_node_id : Nat
  tail_node_id : Nat
  distance : Nat
  max_speed : Nat
  costs : Nat
deriving Repr, DecidableEq

/-- `struct Node`.  `latitude`/`longitude` keep the accepted `f64` literal
text (their numeric values are never used); `traceback_arc : Option<&Arc>` is
modelled as an optional (bucket, position) index into the adjacency table. -/
structure Node where
  id : Nat
  latitude : List Char
  longitude : List Char
  traceback_arc : Option (Nat × Nat)
  settled : Bool
  distance : Option Nat
deriving Repr, DecidableEq

/-- `struct Graph`. -/
structure Graph where
  nodes : List Node
  adjacency_lists : List (List Arc)
deriving Repr, DecidableEq

/-! ### String handling: `str::trim` and `str::split(' ')` -/

/-- Rust `str::trim` on a line (whitespace here: space, tab, CR, LF). -/
def trimChars (l : List Char) : List Char :=
  ((l.dropWhile Char.isWhitespace).reverse.dropWhile Char.isWhitespace).reverse

/-- Rust `str::split(c)`: splits at every separator, keeping empty fields;
always yields at least one field. -/
def splitChar (sep : Char) : List Char → List (List Char)
  | [] => [[]]
  | c :: rest =>
    if c = sep then
      [] :: splitChar sep rest
    else
      match splitChar sep rest with
      | [] => [[c]]
      | p :: ps => (c :: p) :: ps

/-- A trimmed line the reader skips: `line.starts_with("#") || line.is_empty()`. -/
def lineSkipped (cs : List Char) : Bool :=
  cs.head? == some '#' || cs.isEmpty

/-! ### Numeric parsing (`parse::<usize>`, `parse::<u64>`, `parse::<f64>`) -/

/-- Largest `u64` (and 64-bit `usize`) value. -/
def u64Max : Nat := 2 ^ 64 - 1

/-- Digit run to a number (callers guarantee all characters are digits). -/
def digitsToNat (l : List Char) : Nat :=
  l.foldl (fun acc c => acc * 10 + (c.toNat - 48)) 0

/-- Rust `from_str` for unsigned integers: optional `+`, then one or more
ASCII digits; fails on anything else and on overflow. -/
def parseUnsigned (l : List Char) : Option Nat :=
  let ds := match l with
    | '+' :: rest => rest
    | _ => l
  if ds.isEmpty then none
  else if ds.all Char.isDigit then
    let v := digitsToNat ds
    if v ≤ u64Max then some v else none
  else none

/-- Strip one optional leading sign. -/
def stripSign : List Char → List Char
  | '+' :: r => r
  | '-' :: r => r
  | l => l

/-- `inf` / `infinity` / `nan`, case-insensitive (after the sign). -/
def isSpecialFloat (l : List Char) : Bool :=
  let w := l.map Char.toLower
  w == "inf".toList || w == "infinity".toList || w == "nan".toList

/-- Split a float literal at the first `e`/`E` (mantissa, exponent part). -/
def splitExp : List Char → List Char × Option (List Char)
  | [] => ([], none)
  | c :: r =>
    if c = 'e' || c = 'E' then ([], some r)
    else
      let (m, e) := splitExp r
      (c :: m, e)

/-- Mantissa: digits with at most one `.`, at least one digit. -/
def isMantissa (l : List Char) : Bool :=
  decide (l.count '.' ≤ 1) && l.all (fun c => c.isDigit || c = '.') &&
  l.any Char.isDigit

/-- Exponent part after `e`/`E`: optional sign then one or more digits. -/
def isExpPart (l : List Char) : Bool :=
  let d := stripSign l
  !d.isEmpty && d.all Char.isDigit

/-- Recognizer of Rust's `f64::from_str` grammar (parse success only; the
parsed value is never consumed by this core). -/
def isF64Lit (l : List Char) : Bool :=
  let b := stripSign l
  if isSpecialFloat b then true
  else
    match splitExp b with
    | (m, none) => isMantissa m
    | (m, some e) => isMantissa m && isExpPart e

/-! ### Format-error messages (graph.rs builds them with `format!`) -/

def msgGeneral (t : Nat) : String :=
  "Invalid graph file! (general, line " ++ Nat.repr t ++ ")"

def msgInvalidNode (t : Nat) : String :=
  "Invalid graph file! (Invalid node, line " ++ Nat.repr t ++ ")"

def msgInvalidArc (t : Nat) : String :=
  "Invalid graph file! (Invalid arc, line " ++ Nat.repr t ++ ")"

def msgAdditionalLines (t : Nat) : String :=
  "Invalid graph file! (Additional lines, line " ++ Nat.repr t ++ ")"

/-! ### The reader (`Graph::read_lines`) -/

/-- The local state of one `read_lines` call: its counters plus the graph
being populated (`&mut self`). -/
structure RState where
  line_number : Nat
  total_line_number : Nat
  node_count : Nat
  arc_count : Nat
  graph : Graph
deriving Repr, DecidableEq

/-- `self.adjacency_lists[idx].push(a)`: `none` models the out-of-bounds
panic of Rust's `Index` on `Vec`. -/
def pushArc (al : List (List Arc)) (idx : Nat) (a : Arc) :
    Option (List (List Arc)) :=
  if h : idx < al.length then some (al.set idx (al.get ⟨idx, h⟩ ++ [a])) else none

/-- One iteration of the `for line_res in buf.lines()` loop of
`Graph::read_lines`. -/
def processLine (s : RState) (rawLine : String) : Outcome RState :=
  let t := s.total_line_number + 1
  let cs := trimChars rawLine.toList
  if lineSkipped cs then .ok { s with total_line_number := t }
  else
    let ln := s.line_number + 1
    let parts := splitChar ' ' cs
    if parts.length < 1 then .error (.FormatError (msgGeneral t))
    else if ln = 1 then
      match parseUnsigned (parts.getD 0 []) with
      | none => .error .ParseIntError
      | some nc =>
        .ok { s with total_line_number := t, line_number := ln, node_count := nc }
    else if ln = 2 then
      match parseUnsigned (parts.getD 0 []) with
      | none => .error .ParseIntError
      | some ac =>
        .ok { s with
              total_line_number := t
              line_number := ln
              arc_count := ac
              graph := { s.graph with
                adjacency_lists :=
                  s.graph.adjacency_lists ++ List.replicate ac [] } }
    else if ln < s.node_count + 3 then
      if parts.length ≠ 3 then .error (.FormatError (msgInvalidNode t))
      else
        match parseUnsigned (parts.getD 0 []) with
        | none => .error .ParseIntError
        | some nid =>
          if isF64Lit (parts.getD 1 []) then
            if isF64Lit (parts.getD 2 []) then
              .ok { s with
                    total_line_number := t
                    line_number := ln
                    graph := { s.graph with
                      nodes := s.graph.nodes ++
                        [{ id := nid, latitude := parts.getD 1 [],
                           longitude := parts.getD 2 [], traceback_arc := none,
                           settled := false, distance := none }] } }
            else .error .ParseFloatError
          else .error .ParseFloatError
    else if ln < s.node_count + s.arc_count + 3 then
      if parts.length ≠ 4 then .error (.FormatError (msgInvalidArc t))
      else
        match parseUnsigned (parts.getD 0 []) with
        | none => .error .ParseIntError
        | some tail_node =>
          match parseUnsigned (parts.getD 1 []) with
          | none => .error .ParseIntError
          | some head_node =>
            match parseUnsigned (parts.getD 2 []) with
            | none => .error .ParseIntError
            | some dist =>
              match parseUnsigned (parts.getD 3 []) with
              | none => .error .ParseIntError
              | some ms =>
                match pushArc s.graph.adjacency_lists tail_node
                    { tail_node_id := tail_node, head_node_id := head_node,
                      distance := dist, max_speed := ms, costs := dist } with
                | none => .panic "index out of bounds"
                | some al1 =>
                  match pushArc al1 head_node
                      { tail_node_id := head_node, head_node_id := tail_node,
                        distance := dist, max_speed := ms, costs := dist } with
                  | none => .panic "index out of bounds"
                  | some al2 =>
                    .ok { s with
                          total_line_number := t
                          line_number := ln
                          graph := { s.graph with adjacency_lists := al2 } }
    else .error (.FormatError (msgAdditionalLines t))

/-- The reader's loop over the line source. -/
def readLinesAux (s : RState) : List String → Outcome RState
  | [] => .ok s
  | l :: rest =>
    match processLine s l with
    | .ok s1 => readLinesAux s1 rest
    | .error e => .error e
    | .panic m => .panic m

def emptyGraph : Graph := { nodes := [], adjacency_lists := [] }

/-- `Graph::read_lines` for one text stream (the claims exercise single-entry
archives; `read_graph_from_file` would iterate this per entry). -/
def read_lines (g : Graph) (lines : List String) : Outcome Graph :=
  match readLinesAux
      { line_number := 0, total_line_number := 0, node_count := 0,
        arc_count := 0, graph := g } lines with
  | .ok s => .ok s.graph
  | .error e => .error e
  | .panic m => .panic m

/-! ### Accessors and cost models -/

def num_nodes (g : Graph) : Nat := g.nodes.length

def num_arcs (g : Graph) : Nat := g.adjacency_lists.length

/-- `Graph::set_arc_costs_to_distance`. -/
def set_arc_costs_to_distance (g : Graph) : Graph :=
  { g with
    adjacency_lists :=
      g.adjacency_lists.map (List.map (fun a => { a with costs := a.distance })) }

/-- `((arc.distance as f64) * 3.6 / (max_speed as f64)) as u64`, modelled
exactly over `Nat` (note `x / 0 = 0` here where Rust's saturating float cast
would give `u64::MAX`; that zero-speed edge case is unreachable in every
claim). -/
def travelTimeCosts (dist ms : Nat) : Nat := dist * 36 / (10 * ms)

/-- `Graph::set_arc_costs_to_travel_time`. -/
def set_arc_costs_to_travel_time (g : Graph) (max_vehicle_speed : Nat) : Graph :=
  { g with
    adjacency_lists :=
      g.adjacency_lists.map (List.map (fun a =>
        let ms := if max_vehicle_speed < a.max_speed then max_vehicle_speed
                  else a.max_speed
        { a with costs := travelTimeCosts a.distance ms })) }

/-! ### Flood fill (`Graph::compute_reachable_nodes`) -/

/-- `HashSet::insert` on the "next" frontier, modelled as a duplicate-free
list. -/
def insertPend (l : List Nat) (x : Nat) : List Nat :=
  if x ∈ l then l else l ++ [x]

/-- Inner loop over `self.adjacency_lists[node]`: enqueue every head whose
marker is still 0.  `none` models the panic of `marked_nodes[head]` when the
head id is out of range. -/
def foldInsert (marked : List Nat) : List Nat → List Arc → Option (List Nat)
  | nxt, [] => some nxt
  | nxt, a :: rest =>
    if h : a.head_node_id < marked.length then
      if marked.get ⟨a.head_node_id, h⟩ = 0 then
        foldInsert marked (insertPend nxt a.head_node_id) rest
      else foldInsert marked nxt rest
    else none

/-- One drain of the `pending_nodes` set: `(marked, cnt, next)` after
processing each pending node. -/
def bfsRound (g : Graph) :
    List Nat → Nat → List Nat → List Nat → Outcome (List Nat × Nat × List Nat)
  | marked, cnt, nxt, [] => .ok (marked, cnt, nxt)
  | marked, cnt, nxt, n :: rest =>
    if hm : n < marked.length then
      if marked.get ⟨n, hm⟩ = 1 then bfsRound g marked cnt nxt rest
      else
        let marked1 := marked.set n 1
        if ha : n < g.adjacency_lists.length then
          match foldInsert marked1 nxt (g.adjacency_lists.get ⟨n, ha⟩) with
          | none => .panic "index out of bounds"
          | some nxt1 => bfsRound g marked1 (cnt + 1) nxt1 rest
        else .panic "index out of bounds"
    else .panic "index out of bounds"

/-- The `while !pending_nodes.is_empty()` loop.  The fuel only bounds the
number of rounds; `num_nodes g + 2` rounds always suffice because every round
either marks a fresh node or produces an empty next frontier. -/
def bfsLoop (g : Graph) : Nat → List Nat → Nat → List Nat → Outcome (Nat × List Nat)
  | 0, _, _, _ => .panic "fuel exhausted"
  | f + 1, marked, cnt, pend =>
    if pend.isEmpty then .ok (cnt, marked)
    else
      match bfsRound g marked cnt [] pend with
      | .ok (m1, c1, nx) => bfsLoop g f m1 c1 nx
      | .error e => .error e
      | .panic m => .panic m

/-- `Graph::compute_reachable_nodes` (note the counter starts at 1 and is
also incremented when the seed itself is marked). -/
def compute_reachable_nodes (g : Graph) (node_id : Nat) : Outcome (Nat × List Nat) :=
  bfsLoop g (num_nodes g + 2) (List.replicate (num_nodes g) 0) 1 [node_id]

/-! ### Largest connected component (`Graph::compute_lcc`) -/

structure LccState where
  unvisited : List Nat
  marked_nodes : List Nat
  lcc : Nat × List Nat
deriving Repr, DecidableEq

/-- The inner `for j in 0..node_count` loop of `compute_lcc` (it pushes the
outer index `i`, never `j`). -/
def lccInner (i num_marked lcc0 : Nat) (reachable : List Nat) :
    List Nat × List Nat → List Nat → List Nat × List Nat
  | st, [] => st
  | (unv, mk), j :: rest =>
    if reachable.getD j 0 = 0 then
      lccInner i num_marked lcc0 reachable (unv, mk) rest
    else
      let unv1 := if i < j then unv.set j 1 else unv
      let mk1 := if lcc0 < num_marked then mk ++ [i] else mk
      lccInner i num_marked lcc0 reachable (unv1, mk1) rest

/-- One iteration of the outer `for i in 0..node_count` scan. -/
def lccStep (g : Graph) (st : LccState) (i : Nat) : Outcome LccState :=
  if st.unvisited.getD i 0 = 1 then .ok st
  else
    match compute_reachable_nodes g i with
    | .error e => .error e
    | .panic m => .panic m
    | .ok (num_marked, reachable) =>
      if num_marked = 0 then .ok st
      else
        let p := lccInner i num_marked st.lcc.fst reachable
          (st.unvisited, []) (List.range (num_nodes g))
        if st.lcc.fst < num_marked then
          .ok { unvisited := p.fst, marked_nodes := p.snd,
                lcc := (num_marked, p.snd) }
        else
          .ok { unvisited := p.fst, marked_nodes := p.snd, lcc := st.lcc }

def lccLoop (g : Graph) (st : LccState) : List Nat → Outcome LccState
  | [] => .ok st
  | i :: rest =>
    match lccStep g st i with
    | .ok s1 => lccLoop g s1 rest
    | .error e => .error e
    | .panic m => .panic m

/-- `Graph::compute_lcc`. -/
def compute_lcc (g : Graph) : Outcome (Nat × List Nat) :=
  match lccLoop g
      { unvisited := List.replicate (num_nodes g) 0, marked_nodes := [],
        lcc := (0, []) } (List.range (num_nodes g)) with
  | .ok st => .ok st.lcc
  | .error e => .error e
  | .panic m => .panic m

/-! ### Spec-side notions used to state the claims -/

/-- The content lines of an input: trimmed, with blank and `#` lines removed
(the reader's state machine runs on exactly these). -/
def contentOf (lines : List String) : List (List Char) :=
  (lines.map (fun l => trimChars l.toList)).filter (fun cs => !lineSkipped cs)

/-- The integer in the first space-separated field of a content line
(0 when the field does not parse; used only where parsing succeeded). -/
def firstFieldNat (cs : List Char) : Nat :=
  (parseUnsigned ((splitChar ' ' cs).getD 0 [])).getD 0

/-- `node_count` as declared on the first content line. -/
def declaredNodeCount (lines : List String) : Nat :=
  firstFieldNat ((contentOf lines).getD 0 [])

/-- The node ids declared by the node section, in file order. -/
def declaredNodeIds (lines : List String) : List Nat :=
  (((contentOf lines).drop 2).take (declaredNodeCount lines)).map firstFieldNat

/-- Does a load outcome carry the "general" `FormatError`?  (Detected by the
28-character message prefix `Invalid graph file! (general`, which no other
message shares.) -/
def generalErrored (o : Outcome Graph) : Bool :=
  match o with
  | .error (.FormatError m) =>
    m.data.take 28 == "Invalid graph file! (general".data
  | _ => false

/-- Number of entries equal to 1 in a marker array. -/
def count1 (l : List Nat) : Nat := l.count 1

/-- One stored arc leads from `u` to `v`. -/
def hasEdge (g : Graph) (u v : Nat) : Prop :=
  ∃ a ∈ g.adjacency_lists.getD u [], a.head_node_id = v

/-- Reachability along stored arcs (reflexive-transitive closure). -/
def Reach (g : Graph) (u v : Nat) : Prop :=
  Relation.ReflTransGen (hasEdge g) u v

/-- The well-formedness the intended loader establishes: one adjacency bucket
per node, arc heads in range, tails recording their bucket, and arcs stored
in both directions. -/
def WellFormed (g : Graph) : Prop :=
  g.adjacency_lists.length = g.nodes.length ∧
  (∀ u, u < g.adjacency_lists.length →
    ∀ a ∈ g.adjacency_lists.getD u [], a.head_node_id < g.nodes.length) ∧
  (∀ u, u < g.adjacency_lists.length →
    ∀ a ∈ g.adjacency_lists.getD u [],
      ∃ b ∈ g.adjacency_lists.getD a.head_node_id [], b.head_node_id = u)

instance (g : Graph) : Decidable (WellFormed g) := by
  unfold WellFormed
  infer_instance

/-! ### Concrete graphs used by the per-claim evaluations -/

/-- The graph the loader builds from
`["1", "2", "0 0.0 0.0", "0 0 5 5", "0 0 6 6"]`: one node, but two adjacency
buckets (pre-sized from `arc_count = 2`). -/
def gArcCountBuckets : Graph :=
  { nodes := [{ id := 0, latitude := ['0', '.', '0'], longitude := ['0', '.', '0'],
                traceback_arc := none, settled := false, distance := none }],
    adjacency_lists :=
      [[{ head_node_id := 0, tail_node_id := 0, distance := 5, max_speed := 5, costs := 5 },
        { head_node_id := 0, tail_node_id := 0, distance := 5, max_speed := 5, costs := 5 },
        { head_node_id := 0, tail_node_id := 0, distance := 6, max_speed := 6, costs := 6 },
        { head_node_id := 0, tail_node_id := 0, distance := 6, max_speed := 6, costs := 6 }],
       []] }

/-- The graph the loader builds from `["1", "1", "0 0.0 0.0", "0 0 5 5"]`:
a single node with a self-loop stored twice. -/
def gSingleLoop : Graph :=
  { nodes := [{ id := 0, latitude := ['0', '.', '0'], longitude := ['0', '.', '0'],
                traceback_arc := none, settled := false, distance := none }],
    adjacency_lists :=
      [[{ head_node_id := 0, tail_node_id := 0, distance := 5, max_speed := 5, costs := 5 },
        { head_node_id := 0, tail_node_id := 0, distance := 5, max_speed := 5, costs := 5 }]] }

/-- The graph the loader builds from `["1", "1", "5 0.0 0.0", "0 0 1 1"]`:
its only node carries the declared id 5, not its position 0. -/
def gIdFive : Graph :=
  { nodes := [{ id := 5, latitude := ['0', '.', '0'], longitude := ['0', '.', '0'],
                traceback_arc := none, settled := false, distance := none }],
    adjacency_lists :=
      [[{ head_node_id := 0, tail_node_id := 0, distance := 1, max_speed := 1, costs := 1 },
        { head_node_id := 0, tail_node_id := 0, distance := 1, max_speed := 1, costs := 1 }]] }

/-- The graph the loader builds from
`["2", "1", "0 0.0 0.0", "1 1.0 1.0", "0 0 5 5"]`: two nodes but a single
adjacency bucket (pre-sized from `arc_count = 1`), holding a self-loop on
node 0 stored twice. -/
def gBuiltPanic : Graph :=
  { nodes := [{ id := 0, latitude := ['0', '.', '0'], longitude := ['0', '.', '0'],
                traceback_arc := none, settled := false, distance := none },
              { id := 1, latitude := ['1', '.', '0'], longitude := ['1', '.', '0'],
                traceback_arc := none, settled := false, distance := none }],
    adjacency_lists :=
      [[{ head_node_id := 0, tail_node_id := 0, distance := 5, max_speed := 5, costs := 5 },
        { head_node_id := 0, tail_node_id := 0, distance := 5, max_speed := 5, costs := 5 }]] }

/-- A hand-built well-formed graph (edge 0–1 stored both ways, node 2
isolated), used to instantiate the universally quantified theorems. -/
def gWitness : Graph :=
  { nodes :=
      [{ id := 0, latitude := [], longitude := [], traceback_arc := none,
         settled := false, distance := none },
       { id := 1, latitude := [], longitude := [], traceback_arc := none,
         settled := false, distance := none },
       { id := 2, latitude := [], longitude := [], traceback_arc := none,
         settled := false, distance := none }],
    adjacency_lists :=
      [[{ head_node_id := 1, tail_node_id := 0, distance := 7, max_speed := 3, costs := 7 }],
       [{ head_node_id := 0, tail_node_id := 1, distance := 7, max_speed := 3, costs := 7 }],
       []] }

/-! ## Helper lemmas about the reader -/

theorem splitChar_length_pos (sep : Char) (l : List Char) :
    0 < (splitChar sep l).length := by
  induction l with
  | nil => simp [splitChar]
  | cons c rest ih =>
    rw [splitChar]
    split
    · simp
    · cases h : splitChar sep rest with
      | nil => simp
      | cons p ps => simp

/-- Every `FormatError` the line processor can produce: the message names the
invalid-node, invalid-arc or additional-lines case together with the total
line number of the offending line, and arises from a structural (field-count
or section-overflow) violation; the "general" case is unreachable. -/
theorem processLine_formatError {s : RState} {l : String} {m : String}
    (h : processLine s l = .error (.FormatError m)) :
    lineSkipped (trimChars l.toList) = false ∧
    ((m = msgInvalidNode (s.total_line_number + 1) ∧
        (splitChar ' ' (trimChars l.toList)).length ≠ 3) ∨
     (m = msgInvalidArc (s.total_line_number + 1) ∧
        (splitChar ' ' (trimChars l.toList)).length ≠ 4) ∨
     m = msgAdditionalLines (s.total_line_number + 1)) := by
  have hpos := splitChar_length_pos ' ' (trimChars l.toList)
  simp only [processLine] at h
  repeat' split at h
  all_goals simp_all

/-- The shape of every successful `processLine` step (only the fields the
node-table bookkeeping needs). -/
theorem processLine_ok_cases {s : RState} {l : String} {s1 : RState}
    (h : processLine s l = .ok s1) :
    (lineSkipped (trimChars l.toList) = true ∧
      s1 = { s with total_line_number := s.total_line_number + 1 }) ∨
    (lineSkipped (trimChars l.toList) = false ∧
      s1.total_line_number = s.total_line_number + 1 ∧
      s1.line_number = s.line_number + 1 ∧
      ((s.line_number = 0 ∧ s1.node_count = firstFieldNat (trimChars l.toList) ∧
          s1.graph.nodes = s.graph.nodes) ∨
       (s.line_number = 1 ∧ s1.node_count = s.node_count ∧
          s1.graph.nodes = s.graph.nodes) ∨
       (2 ≤ s.line_number ∧ s.line_number < s.node_count + 2 ∧
          s1.node_count = s.node_count ∧
          s1.graph.nodes.map Node.id =
            s.graph.nodes.map Node.id ++ [firstFieldNat (trimChars l.toList)]) ∨
       (s.node_count + 2 ≤ s.line_number ∧ s1.node_count = s.node_count ∧
          s1.graph.nodes = s.graph.nodes))) := by
  simp only [processLine] at h
  repeat' split at h
  all_goals cases h
  all_goals simp_all [firstFieldNat]
  all_goals omega

theorem processLine_ok_total {s : RState} {l : String} {s1 : RState}
    (h : processLine s l = .ok s1) :
    s1.total_line_number = s.total_line_number + 1 := by
  rcases processLine_ok_cases h with ⟨_, rfl⟩ | ⟨_, h1, _⟩
  · rfl
  · exact h1

theorem contentOf_cons (l : String) (rest : List String) :
    contentOf (l :: rest) =
      if lineSkipped (trimChars l.toList) then contentOf rest
      else trimChars l.toList :: contentOf rest := by
  simp only [contentOf, List.map_cons, List.filter_cons]
  cases h : lineSkipped (trimChars l.toList) <;> simp [h]

/-- Every `FormatError` a whole `readLinesAux` run reports names the
invalid-node / invalid-arc / additional-lines case together with the 1-based
index of the offending line in the full line list (blanks and comments
included), and stems from a field-count or section-overflow violation. -/
theorem readLinesAux_formatError :
    ∀ (lines : List String) (s : RState) (m : String),
      readLinesAux s lines = .error (.FormatError m) →
      ∃ k, k < lines.length ∧
        lineSkipped (trimChars (lines.getD k "").toList) = false ∧
        ((m = msgInvalidNode (s.total_line_number + k + 1) ∧
            (splitChar ' ' (trimChars (lines.getD k "").toList)).length ≠ 3) ∨
         (m = msgInvalidArc (s.total_line_number + k + 1) ∧
            (splitChar ' ' (trimChars (lines.getD k "").toList)).length ≠ 4) ∨
         m = msgAdditionalLines (s.total_line_number + k + 1)) := by
  intro lines
  induction lines with
  | nil => intro s m h; simp [readLinesAux] at h
  | cons l rest ih =>
    intro s m h
    rw [readLinesAux] at h
    cases hp : processLine s l with
    | ok s1 =>
      rw [hp] at h
      obtain ⟨k, hk, hskip, hcase⟩ := ih s1 m h
      have ht := processLine_ok_total hp
      rw [ht] at hcase
      have harith : s.total_line_number + 1 + k + 1 =
          s.total_line_number + (k + 1) + 1 := by omega
      rw [harith] at hcase
      exact ⟨k + 1, by simpa using hk, by simpa using hskip,
        by simpa using hcase⟩
    | error e =>
      rw [hp] at h
      injection h with he
      subst he
      obtain ⟨hskip, hcase⟩ := processLine_formatError hp
      exact ⟨0, by simp, by simpa using hskip, by simpa using hcase⟩
    | panic pm => rw [hp] at h; cases h

/-- Nodes accumulated after the two header lines: the next
`node_count + 2 - line_number` content lines are node lines and contribute
their first fields as ids, in order. -/
theorem readLinesAux_nodes_post :
    ∀ (lines : List String) (s sF : RState), 2 ≤ s.line_number →
      readLinesAux s lines = .ok sF →
      sF.graph.nodes.map Node.id =
        s.graph.nodes.map Node.id ++
          ((contentOf lines).take (s.node_count + 2 - s.line_number)).map
            firstFieldNat := by
  intro lines
  induction lines with
  | nil =>
    intro s sF h2 h
    rw [readLinesAux] at h
    injection h with he
    subst he
    simp [contentOf]
  | cons l rest ih =>
    intro s sF h2 h
    rw [readLinesAux] at h
    cases hp : processLine s l with
    | error e => rw [hp] at h; cases h
    | panic pm => rw [hp] at h; cases h
    | ok s1 =>
      rw [hp] at h
      rcases processLine_ok_cases hp with ⟨hskip, rfl⟩ | ⟨hskip, htot, hline, hcases⟩
      · have ihh := ih _ sF (by simpa using h2) h
        rw [contentOf_cons, hskip]
        simpa using ihh
      · rcases hcases with ⟨h0, _, _⟩ | ⟨h1c, _, _⟩ | ⟨hge2, hlt, hnc, hnodes⟩ |
          ⟨hge, hnc, hnodes⟩
        · omega
        · omega
        · have ihh := ih s1 sF (by omega) h
          rw [contentOf_cons, if_neg (by simpa using hskip)]
          have hr : s.node_count + 2 - s.line_number =
              (s1.node_count + 2 - s1.line_number) + 1 := by omega
          rw [hr, List.take_succ_cons, List.map_cons, ihh, hnodes]
          simp
        · have ihh := ih s1 sF (by omega) h
          have hr0 : s.node_count + 2 - s.line_number = 0 := by omega
          have hr1 : s1.node_count + 2 - s1.line_number = 0 := by omega
          rw [hr1] at ihh
          simp only [List.take_zero, List.map_nil, List.append_nil] at ihh
          rw [contentOf_cons, if_neg (by simpa using hskip), hr0]
          simp [ihh, hnodes]

/-- Nodes accumulated from just after the first header line. -/
theorem readLinesAux_nodes_h1 :
    ∀ (lines : List String) (s sF : RState), s.line_number = 1 →
      readLinesAux s lines = .ok sF →
      sF.graph.nodes.map Node.id =
        s.graph.nodes.map Node.id ++
          (((contentOf lines).drop 1).take s.node_count).map firstFieldNat := by
  intro lines
  induction lines with
  | nil =>
    intro s sF h1 h
    rw [readLinesAux] at h
    injection h with he
    subst he
    simp [contentOf]
  | cons l rest ih =>
    intro s sF h1 h
    rw [readLinesAux] at h
    cases hp : processLine s l with
    | error e => rw [hp] at h; cases h
    | panic pm => rw [hp] at h; cases h
    | ok s1 =>
      rw [hp] at h
      rcases processLine_ok_cases hp with ⟨hskip, rfl⟩ | ⟨hskip, htot, hline, hcases⟩
      · have ihh := ih _ sF (by simpa using h1) h
        rw [contentOf_cons, hskip]
        simpa using ihh
      · rcases hcases with ⟨h0, _, _⟩ | ⟨h1c, hnc, hnodes⟩ | ⟨hge2, _, _, _⟩ |
          ⟨hge, _, _⟩
        · omega
        · have ihh := readLinesAux_nodes_post rest s1 sF (by omega) h
          rw [contentOf_cons, if_neg (by simpa using hskip)]
          have hr : s1.node_count + 2 - s1.line_number = s.node_count := by omega
          rw [hr, hnodes] at ihh
          simpa using ihh
        · omega
        · omega

/-- Nodes accumulated by a full run started at line counter 0: the first
content line fixes `node_count`, lines 3 .. `node_count + 2` contribute the
declared ids. -/
theorem readLinesAux_nodes_h0 :
    ∀ (lines : List String) (s sF : RState), s.line_number = 0 →
      readLinesAux s lines = .ok sF →
      sF.graph.nodes.map Node.id =
        s.graph.nodes.map Node.id ++
          (((contentOf lines).drop 2).take
            (firstFieldNat ((contentOf lines).getD 0 []))).map firstFieldNat := by
  intro lines
  induction lines with
  | nil =>
    intro s sF h0 h
    rw [readLinesAux] at h
    injection h with he
    subst he
    simp [contentOf]
  | cons l rest ih =>
    intro s sF h0 h
    rw [readLinesAux] at h
    cases hp : processLine s l with
    | error e => rw [hp] at h; cases h
    | panic pm => rw [hp] at h; cases h
    | ok s1 =>
      rw [hp] at h
      rcases processLine_ok_cases hp with ⟨hskip, rfl⟩ | ⟨hskip, htot, hline, hcases⟩
      · have ihh := ih _ sF (by simpa using h0) h
        rw [contentOf_cons, hskip]
        simpa using ihh
      · rcases hcases with ⟨hz, hnc, hnodes⟩ | ⟨h1c, _, _⟩ | ⟨hge2, _, _, _⟩ |
          ⟨hge, _, _⟩
        · have ihh := readLinesAux_nodes_h1 rest s1 sF (by omega) h
          rw [contentOf_cons, if_neg (by simpa using hskip)]
          rw [hnc, hnodes] at ihh
          simpa using ihh
        · omega
        · omega
        · omega

/-! ## Theorems -/

/-- C1: the claim says the adjacency table gets exactly `node_count` buckets
and `num_arcs()` returns `node_count`.  The code pre-sizes the table from
`arc_count` instead: the input declaring 1 node and 2 arcs loads successfully
into a graph with 1 node but 2 adjacency buckets, and `num_arcs()` returns 2,
not 1. -/
theorem adjacency_presized_from_arc_count :
    read_lines emptyGraph ["1", "2", "0 0.0 0.0", "0 0 5 5", "0 0 6 6"] =
      .ok gArcCountBuckets ∧
    num_nodes gArcCountBuckets = 1 ∧
    num_arcs gArcCountBuckets = 2 ∧
    (num_arcs gArcCountBuckets == num_nodes gArcCountBuckets) = false := by
  decide

/-- C2: the claim says the scenario input (2 nodes, 1 declared arc) loads
successfully.  The code panics instead: the adjacency table is pre-sized to
`arc_count = 1` buckets, so storing the reverse arc into `adjacency[1]` is an
out-of-bounds index.  (The expected time-mode cost value 7 for
distance 100 / cap 50 is itself correct: `100 * 3.6 / 50` truncates to 7.) -/
theorem scenario_input_panics :
    read_lines emptyGraph ["2", "1", "0 0.0 0.0", "1 1.0 1.0", "0 1 100 50"] =
      .panic "index out of bounds" ∧
    travelTimeCosts 100 50 = 7 := by
  decide

/-- C3: the claim says the flood-fill size values sum to `node_count`.  The
counter starts at 1 and is incremented again when the seed is marked, so on
the loaded single-node graph the only component's flood-fill reports size 2
while `node_count` is 1. -/
theorem flood_fill_size_off_by_one :
    read_lines emptyGraph ["1", "1", "0 0.0 0.0", "0 0 5 5"] = .ok gSingleLoop ∧
    num_nodes gSingleLoop = 1 ∧
    compute_reachable_nodes gSingleLoop 0 = .ok (2, [1]) ∧
    (2 == num_nodes gSingleLoop) = false := by
  decide

/-- C5: the claim says every declared edge of a well-formed input yields two
stored arcs.  For the well-formed input declaring 3 nodes and the edge
`1 2 5 5`, the code stores nothing and panics: the adjacency table has only
`arc_count = 1` bucket, so `adjacency[1]` is out of bounds. -/
theorem declared_edge_not_stored :
    read_lines emptyGraph
      ["3", "1", "0 0.0 0.0", "1 1.0 1.0", "2 2.0 2.0", "1 2 5 5"] =
      .panic "index out of bounds" := by
  decide

/-- C6: the claim says every malformed input — including out-of-range node
ids in arc lines — yields one of the closed error kinds and never panics.
The arc line `0 5 7 7` with only 1 declared node makes `adjacency[5]` panic
with an out-of-bounds index instead of returning an error. -/
theorem out_of_range_arc_id_panics :
    read_lines emptyGraph ["1", "1", "0 0.0 0.0", "0 5 7 7"] =
      .panic "index out of bounds" := by
  decide

/-- C9 counterexample: the claim says that after a successful load node ids
form `[0, node_count)` and equal their positions.  The input declaring id 5
on its only node line loads successfully, yet the stored id list is `[5]`
while the position range is `[0]`. -/
theorem declared_id_kept_verbatim :
    read_lines emptyGraph ["1", "1", "5 0.0 0.0", "0 0 1 1"] = .ok gIdFive ∧
    gIdFive.nodes.map Node.id = [5] ∧
    List.range (num_nodes gIdFive) = [0] ∧
    (gIdFive.nodes.map Node.id == List.range (num_nodes gIdFive)) = false := by
  decide

/-- C7: both cost-model passes are idempotent: distance mode leaves
`costs = distance` after each of two applications (and the second application
changes nothing), and time mode with a fixed cap is invariant under
reapplication, because each pass recomputes `costs` from the unchanged
`distance`/`max_speed` fields only. -/
theorem cost_models_idempotent (g : Graph) (v : Nat) :
    set_arc_costs_to_distance (set_arc_costs_to_distance g) =
      set_arc_costs_to_distance g ∧
    ((set_arc_costs_to_distance g).adjacency_lists.all
      (fun l => l.all (fun a => a.costs == a.distance))) = true ∧
    ((set_arc_costs_to_distance (set_arc_costs_to_distance g)).adjacency_lists.all
      (fun l => l.all (fun a => a.costs == a.distance))) = true ∧
    set_arc_costs_to_travel_time (set_arc_costs_to_travel_time g v) v =
      set_arc_costs_to_travel_time g v := by
  refine ⟨?_, ?_, ?_, ?_⟩
  · simp [set_arc_costs_to_distance, List.map_map, Function.comp]
  · simp [set_arc_costs_to_distance, List.all_eq_true]
  · simp [set_arc_costs_to_distance, List.all_eq_true, List.map_map,
      Function.comp]
  · simp [set_arc_costs_to_travel_time, List.map_map, Function.comp]

/-! ## Helper lemmas for the flood fill and the LCC scan -/

theorem getD_eq_get_of_lt {α : Type} (l : List α) (d : α) {n : Nat}
    (h : n < l.length) : l.getD n d = l.get ⟨n, h⟩ := by
  simp [List.getD_eq_getElem?_getD, List.getElem?_eq_getElem h]

theorem getD_set_at {l : List Nat} {n : Nat} (x : Nat) (h : n < l.length) :
    (l.set n x).getD n 0 = x := by
  simp [List.getD_eq_getElem?_getD, List.getElem?_set, h]

theorem getD_set_other {l : List Nat} {n m : Nat} (x : Nat) (h : n ≠ m) :
    (l.set n x).getD m 0 = l.getD m 0 := by
  simp [List.getD_eq_getElem?_getD, List.getElem?_set, h]

theorem getD_set_cases (l : List Nat) (n m x : Nat) :
    (l.set n x).getD m 0 = l.getD m 0 ∨
      (n = m ∧ n < l.length ∧ (l.set n x).getD m 0 = x) := by
  by_cases h : n = m
  · subst h
    by_cases hl : n < l.length
    · exact Or.inr ⟨rfl, hl, getD_set_at x hl⟩
    · rw [List.set_eq_of_length_le (by omega)]
      exact Or.inl rfl
  · exact Or.inl (getD_set_other x h)

theorem count1_replicate (n : Nat) : count1 (List.replicate n 0) = 0 := by
  simp [count1, List.count_replicate]

theorem count1_set_fresh {l : List Nat} {n : Nat} (h : n < l.length)
    (h0 : l.getD n 0 ≠ 1) : count1 (l.set n 1) = count1 l + 1 := by
  induction l generalizing n with
  | nil => simp at h
  | cons a t ih =>
    cases n with
    | zero =>
      have ha : a ≠ 1 := by simpa using h0
      simp [count1, List.count_cons, ha]
    | succ m =>
      have hrec := ih (n := m) (by simpa using h) (by simpa using h0)
      simp only [List.set_cons_succ, count1, List.count_cons] at hrec ⊢
      omega

theorem mem_insertPend {l : List Nat} {x y : Nat} :
    x ∈ insertPend l y ↔ x ∈ l ∨ x = y := by
  rw [insertPend]
  split
  · constructor
    · exact fun hx => Or.inl hx
    · rintro (hx | rfl)
      · exact hx
      · assumption
  · simp

/-- The enqueue loop over one adjacency bucket: succeeds when all heads are
in range, only grows the frontier, inserts only (unmarked) arc heads, and
leaves every head either already marked or enqueued. -/
theorem foldInsert_spec (marked : List Nat) :
    ∀ (arcs : List Arc) (nxt : List Nat),
      (∀ a ∈ arcs, a.head_node_id < marked.length) →
      ∃ nxt1, foldInsert marked nxt arcs = some nxt1 ∧
        (∀ x ∈ nxt, x ∈ nxt1) ∧
        (∀ x ∈ nxt1, x ∈ nxt ∨ ∃ a ∈ arcs, a.head_node_id = x) ∧
        (∀ a ∈ arcs,
          marked.getD a.head_node_id 0 ≠ 0 ∨ a.head_node_id ∈ nxt1) := by
  intro arcs
  induction arcs with
  | nil =>
    intro nxt h
    exact ⟨nxt, rfl, fun x hx => hx, fun x hx => Or.inl hx, by simp⟩
  | cons a rest ih =>
    intro nxt h
    have ha : a.head_node_id < marked.length := h a (by simp)
    rw [foldInsert, dif_pos ha]
    by_cases hm : marked.get ⟨a.head_node_id, ha⟩ = 0
    · rw [if_pos hm]
      obtain ⟨nxt1, heq, hsub, hsound, hcover⟩ :=
        ih (insertPend nxt a.head_node_id) (fun b hb => h b (by simp [hb]))
      refine ⟨nxt1, heq, ?_, ?_, ?_⟩
      · intro x hx
        exact hsub x (mem_insertPend.mpr (Or.inl hx))
      · intro x hx
        rcases hsound x hx with hx2 | ⟨b, hb, rfl⟩
        · rcases mem_insertPend.mp hx2 with h3 | rfl
          · exact Or.inl h3
          · exact Or.inr ⟨a, by simp, rfl⟩
        · exact Or.inr ⟨b, by simp [hb], rfl⟩
      · intro b hb
        rcases List.mem_cons.mp hb with rfl | hb2
        · exact Or.inr (hsub _ (mem_insertPend.mpr (Or.inr rfl)))
        · exact hcover b hb2
    · rw [if_neg hm]
      obtain ⟨nxt1, heq, hsub, hsound, hcover⟩ :=
        ih nxt (fun b hb => h b (by simp [hb]))
      refine ⟨nxt1, heq, hsub, ?_, ?_⟩
      · intro x hx
        rcases hsound x hx with hx2 | ⟨b, hb, rfl⟩
        · exact Or.inl hx2
        · exact Or.inr ⟨b, by simp [hb], rfl⟩
      · intro b hb
        rcases List.mem_cons.mp hb with rfl | hb2
        · left
          rw [getD_eq_get_of_lt _ _ ha]
          exact hm
        · exact hcover b hb2

/-- One frontier drain: never panics when all ids are in range, marks exactly
the pending nodes on top of the old marks, counts each fresh mark once, and
keeps every marked node's neighbours covered by marks or the next frontier. -/
theorem bfsRound_spec (g : Graph) :
    ∀ (pend marked : List Nat) (cnt : Nat) (nxt : List Nat),
      (∀ x ∈ pend, x < marked.length) →
      g.adjacency_lists.length = marked.length →
      (∀ u, ∀ a ∈ g.adjacency_lists.getD u [], a.head_node_id < marked.length) →
      (∀ j, marked.getD j 0 = 0 ∨ marked.getD j 0 = 1) →
      ∃ m1 c1 nx1, bfsRound g marked cnt nxt pend = .ok (m1, c1, nx1) ∧
        m1.length = marked.length ∧
        (∀ j, m1.getD j 0 = 0 ∨ m1.getD j 0 = 1) ∧
        (∀ j, marked.getD j 0 = 1 → m1.getD j 0 = 1) ∧
        (∀ j, m1.getD j 0 = 1 → marked.getD j 0 = 1 ∨ j ∈ pend) ∧
        (∀ p ∈ pend, m1.getD p 0 = 1) ∧
        (∀ x ∈ nxt, x ∈ nx1) ∧
        (∀ x ∈ nx1, x ∈ nxt ∨ ∃ p ∈ pend, hasEdge g p x) ∧
        c1 + count1 marked = cnt + count1 m1 ∧
        count1 marked ≤ count1 m1 ∧
        (count1 m1 = count1 marked → m1 = marked ∧ nx1 = nxt) ∧
        ((∀ u, marked.getD u 0 = 1 →
            ∀ a ∈ g.adjacency_lists.getD u [],
              marked.getD a.head_node_id 0 = 1 ∨ a.head_node_id ∈ pend ∨
                a.head_node_id ∈ nxt) →
          ∀ u, m1.getD u 0 = 1 →
            ∀ a ∈ g.adjacency_lists.getD u [],
              m1.getD a.head_node_id 0 = 1 ∨ a.head_node_id ∈ nx1) := by
  intro pend
  induction pend with
  | nil =>
    intro marked cnt nxt hpend hadj hheads h01
    refine ⟨marked, cnt, nxt, rfl, rfl, h01, fun j hj => hj,
      fun j hj => Or.inl hj, by simp, fun x hx => hx, fun x hx => Or.inl hx,
      by omega, Nat.le_refl _, fun _ => ⟨rfl, rfl⟩, ?_⟩
    intro Hc u hu a hai
    rcases Hc u hu a hai with hh | hh | hh
    · exact Or.inl hh
    · simp at hh
    · exact Or.inr hh
  | cons n rest ih =>
    intro marked cnt nxt hpend hadj hheads h01
    have hn : n < marked.length := hpend n (by simp)
    rw [bfsRound, dif_pos hn]
    by_cases hmn : marked.get ⟨n, hn⟩ = 1
    · rw [if_pos hmn]
      have hmn2 : marked.getD n 0 = 1 := by
        rw [getD_eq_get_of_lt _ _ hn]; exact hmn
      obtain ⟨m1, c1, nx1, heq, hlen, h01b, hmono, hsound, hpendmk, hnsub,
        hnsound, hcount, hcmono, hnoprog, hclos⟩ :=
        ih marked cnt nxt (fun x hx => hpend x (by simp [hx])) hadj hheads h01
      refine ⟨m1, c1, nx1, heq, hlen, h01b, hmono, ?_, ?_, hnsub, ?_, hcount,
        hcmono, ?_, ?_⟩
      · intro j hj
        rcases hsound j hj with hh | hh
        · exact Or.inl hh
        · exact Or.inr (by simp [hh])
      · intro p hp
        rcases List.mem_cons.mp hp with rfl | hp2
        · exact hmono p hmn2
        · exact hpendmk p hp2
      · intro x hx
        rcases hnsound x hx with hh | ⟨p, hp, he⟩
        · exact Or.inl hh
        · exact Or.inr ⟨p, by simp [hp], he⟩
      · intro hcnt1
        exact hnoprog hcnt1
      · intro Hc
        refine hclos ?_
        intro u hu a hai
        rcases Hc u hu a hai with hh | hh | hh
        · exact Or.inl hh
        · rcases List.mem_cons.mp hh with rfl | hh2
          · exact Or.inl hmn2
          · exact Or.inr (Or.inl hh2)
        · exact Or.inr (Or.inr hh)
    · rw [if_neg hmn]
      have hmn2 : marked.getD n 0 ≠ 1 := by
        rw [getD_eq_get_of_lt _ _ hn]; exact hmn
      have ha : n < g.adjacency_lists.length := by rw [hadj]; exact hn
      rw [dif_pos ha]
      have hgetD : g.adjacency_lists.getD n [] = g.adjacency_lists.get ⟨n, ha⟩ :=
        getD_eq_get_of_lt _ _ ha
      have harcs : ∀ a ∈ g.adjacency_lists.get ⟨n, ha⟩,
          a.head_node_id < (marked.set n 1).length := by
        intro a hai
        rw [List.length_set]
        exact hheads n a (by rw [hgetD]; exact hai)
      obtain ⟨nxt1, hfold, hins_sub, hins_sound, hins_cover⟩ :=
        foldInsert_spec (marked.set n 1) (g.adjacency_lists.get ⟨n, ha⟩) nxt harcs
      rw [hfold]
      have hset01 : ∀ j, (marked.set n 1).getD j 0 = 0 ∨
          (marked.set n 1).getD j 0 = 1 := by
        intro j
        rcases getD_set_cases marked n j 1 with hh | ⟨_, _, hh⟩
        · rw [hh]; exact h01 j
        · rw [hh]; exact Or.inr rfl
      have hsetmono : ∀ j, marked.getD j 0 = 1 → (marked.set n 1).getD j 0 = 1 := by
        intro j hj
        rcases getD_set_cases marked n j 1 with hh | ⟨_, _, hh⟩
        · rw [hh]; exact hj
        · rw [hh]
      have hsetn : (marked.set n 1).getD n 0 = 1 := getD_set_at 1 hn
      have hsetcases : ∀ j, (marked.set n 1).getD j 0 = 1 →
          marked.getD j 0 = 1 ∨ j = n := by
        intro j hj
        rcases getD_set_cases marked n j 1 with hh | ⟨rfl, _, _⟩
        · rw [hh] at hj; exact Or.inl hj
        · exact Or.inr rfl
      obtain ⟨m1, c1, nx1, heq, hlen, h01b, hmono, hsound, hpendmk, hnsub,
        hnsound, hcount, hcmono, hnoprog, hclos⟩ :=
        ih (marked.set n 1) (cnt + 1) nxt1
          (fun x hx => by rw [List.length_set]; exact hpend x (by simp [hx]))
          (by rw [List.length_set]; exact hadj)
          (fun u a hai => by rw [List.length_set]; exact hheads u a hai)
          hset01
      have hcset : count1 (marked.set n 1) = count1 marked + 1 :=
        count1_set_fresh hn hmn2
      refine ⟨m1, c1, nx1, heq, by rw [hlen, List.length_set], h01b, ?_, ?_, ?_,
        ?_, ?_, by omega, by omega, ?_, ?_⟩
      · intro j hj
        exact hmono j (hsetmono j hj)
      · intro j hj
        rcases hsound j hj with hh | hh
        · rcases hsetcases j hh with h2 | rfl
          · exact Or.inl h2
          · exact Or.inr (by simp)
        · exact Or.inr (by simp [hh])
      · intro p hp
        rcases List.mem_cons.mp hp with rfl | hp2
        · exact hmono p hsetn
        · exact hpendmk p hp2
      · intro x hx
        exact hnsub x (hins_sub x hx)
      · intro x hx
        rcases hnsound x hx with hh | ⟨p, hp, he⟩
        · rcases hins_sound x hh with h2 | ⟨b, hb, rfl⟩
          · exact Or.inl h2
          · exact Or.inr ⟨n, by simp, ⟨b, by rw [hgetD]; exact hb, rfl⟩⟩
        · exact Or.inr ⟨p, by simp [hp], he⟩
      · intro hcnt1
        have : count1 (marked.set n 1) ≤ count1 m1 := hcmono
        omega
      · intro Hc
        refine hclos ?_
        intro u hu a hai
        rcases hsetcases u hu with humk | rfl
        · rcases Hc u humk a hai with hh | hh | hh
          · exact Or.inl (hsetmono _ hh)
          · rcases List.mem_cons.mp hh with rfl | hh2
            · exact Or.inl hsetn
            · exact Or.inr (Or.inl hh2)
          · exact Or.inr (Or.inr (hins_sub _ hh))
        · have hai2 : a ∈ g.adjacency_lists.get ⟨u, ha⟩ := by
            rw [← hgetD]; exact hai
          rcases hins_cover a hai2 with hh | hh
          · rcases hset01 a.head_node_id with h2 | h2
            · exact absurd h2 hh
            · exact Or.inl h2
          · exact Or.inr (Or.inr hh)

/-- The whole flood-fill loop: with enough fuel (more than the number of
still-unmarked slots) it terminates without panicking, returns the marker
array of exactly the nodes reachable from everything already marked or
pending, and a counter of one plus the number of marks. -/
theorem bfsLoop_spec (g : Graph) (seed : Nat) :
    ∀ (fuel : Nat) (marked : List Nat) (cnt : Nat) (pend : List Nat),
      marked.length - count1 marked + 2 ≤ fuel →
      g.adjacency_lists.length = marked.length →
      (∀ u, ∀ a ∈ g.adjacency_lists.getD u [], a.head_node_id < marked.length) →
      (∀ j, marked.getD j 0 = 0 ∨ marked.getD j 0 = 1) →
      (∀ x ∈ pend, x < marked.length) →
      cnt = 1 + count1 marked →
      (∀ u, marked.getD u 0 = 1 →
        ∀ a ∈ g.adjacency_lists.getD u [],
          marked.getD a.head_node_id 0 = 1 ∨ a.head_node_id ∈ pend) →
      (∀ j, marked.getD j 0 = 1 → Reach g seed j) →
      (∀ p ∈ pend, Reach g seed p) →
      ∃ c2 m2, bfsLoop g fuel marked cnt pend = .ok (c2, m2) ∧
        m2.length = marked.length ∧
        (∀ j, m2.getD j 0 = 0 ∨ m2.getD j 0 = 1) ∧
        c2 = 1 + count1 m2 ∧
        (∀ j, marked.getD j 0 = 1 → m2.getD j 0 = 1) ∧
        (∀ p ∈ pend, m2.getD p 0 = 1) ∧
        (∀ u, m2.getD u 0 = 1 →
          ∀ a ∈ g.adjacency_lists.getD u [], m2.getD a.head_node_id 0 = 1) ∧
        (∀ j, m2.getD j 0 = 1 → Reach g seed j) := by
  intro fuel
  induction fuel with
  | zero =>
    intro marked cnt pend hfuel
    omega
  | succ f ih =>
    intro marked cnt pend hfuel hadj hheads h01 hpendlt hcnt Hc hsound hpsound
    rw [bfsLoop]
    by_cases hp : pend.isEmpty
    · rw [if_pos hp]
      have hpe : pend = [] := List.isEmpty_iff.mp hp
      subst hpe
      refine ⟨cnt, marked, rfl, rfl, h01, hcnt, fun j hj => hj, by simp, ?_,
        hsound⟩
      intro u hu a hai
      rcases Hc u hu a hai with hh | hh
      · exact hh
      · simp at hh
    · rw [if_neg hp]
      obtain ⟨m1, c1, nx1, heq, hlen, h01b, hmono, hsoundR, hpendmk, hnsub,
        hnsound, hcount, hcmono, hnoprog, hclos⟩ :=
        bfsRound_spec g pend marked cnt [] hpendlt hadj hheads h01
      rw [heq]
      have hclos2 : ∀ u, m1.getD u 0 = 1 →
          ∀ a ∈ g.adjacency_lists.getD u [],
            m1.getD a.head_node_id 0 = 1 ∨ a.head_node_id ∈ nx1 := by
        refine hclos ?_
        intro u hu a hai
        rcases Hc u hu a hai with hh | hh
        · exact Or.inl hh
        · exact Or.inr (Or.inl hh)
      have hm1sound : ∀ j, m1.getD j 0 = 1 → Reach g seed j := by
        intro j hj
        rcases hsoundR j hj with hh | hh
        · exact hsound j hh
        · exact hpsound j hh
      have hcle : count1 m1 ≤ m1.length := List.count_le_length _ _
      by_cases hprog : count1 m1 = count1 marked
      · obtain ⟨hm1eq, hnx1⟩ := hnoprog hprog
        cases f with
        | zero => omega
        | succ f2 =>
          have hrun : bfsLoop g (f2 + 1) m1 c1 nx1 = .ok (c1, m1) := by
            rw [bfsLoop, if_pos (by simp [hnx1])]
          have hc1 : c1 = cnt := by omega
          subst hm1eq
          refine ⟨c1, m1, hrun, rfl, h01b, by omega, hmono, ?_, ?_, hm1sound⟩
          · intro p hpp
            exact hpendmk p hpp
          · intro u hu a hai
            rcases hclos2 u hu a hai with hh | hh
            · exact hh
            · rw [hnx1] at hh
              simp at hh
      · have hstrict : count1 marked + 1 ≤ count1 m1 := by omega
        obtain ⟨c2, m2, heq2, hlen2, h012, hcnt2, hmono2, hpend2, hclosF,
          hsoundF⟩ :=
          ih m1 c1 nx1
            (by rw [hlen]; omega)
            (by rw [hlen]; exact hadj)
            (fun u a hai => by rw [hlen]; exact hheads u a hai)
            h01b
            (by
              intro x hx
              rcases hnsound x hx with hh | ⟨p, hpp, b, hb, rfl⟩
              · simp at hh
              · rw [hlen]; exact hheads p b hb)
            (by omega)
            hclos2
            hm1sound
            (by
              intro x hx
              rcases hnsound x hx with hh | ⟨p, hpp, he⟩
              · simp at hh
              · exact Relation.ReflTransGen.tail (hpsound p hpp) he)
        refine ⟨c2, m2, heq2, by rw [hlen2, hlen], h012, hcnt2, ?_, ?_, hclosF,
          hsoundF⟩
        · intro j hj
          exact hmono2 j (hmono j hj)
        · intro p hpp
          exact hmono2 p (hpendmk p hpp)

theorem getD_replicate_zero (n j : Nat) :
    (List.replicate n (0 : Nat)).getD j 0 = 0 := by
  rcases Nat.lt_or_ge j n with hj | hj
  · rw [getD_eq_get_of_lt _ _ (by simpa using hj)]
    simp
  · rw [List.getD_eq_default _ _ (by simpa using hj)]

theorem hasEdge_symm {g : Graph} (hWF : WellFormed g) {u v : Nat}
    (h : hasEdge g u v) : hasEdge g v u := by
  obtain ⟨a, ha, rfl⟩ := h
  by_cases hu : u < g.adjacency_lists.length
  · obtain ⟨b, hb, hbu⟩ := hWF.2.2 u hu a ha
    exact ⟨b, hb, hbu⟩
  · rw [List.getD_eq_default _ _ (by omega)] at ha
    simp at ha

theorem Reach_symm {g : Graph} (hWF : WellFormed g) {u v : Nat}
    (h : Reach g u v) : Reach g v u :=
  Relation.ReflTransGen.symmetric (fun _ _ he => hasEdge_symm hWF he) h

theorem Reach_lt {g : Graph} (hWF : WellFormed g) {u v : Nat}
    (hu : u < num_nodes g) (h : Reach g u v) : v < num_nodes g := by
  induction h with
  | refl => exact hu
  | @tail b c hst hedge ih =>
    obtain ⟨a, ha, rfl⟩ := hedge
    by_cases hb : b < g.adjacency_lists.length
    · exact hWF.2.1 b hb a ha
    · rw [List.getD_eq_default _ _ (by omega)] at ha
      simp at ha

/-- `compute_reachable_nodes` on a well-formed graph marks exactly the nodes
reachable from the seed and reports one plus their number (the off-by-one of
the source's counter initialization). -/
theorem compute_reachable_nodes_spec (g : Graph) (hWF : WellFormed g)
    {seed : Nat} (hseed : seed < num_nodes g) :
    ∃ m2, compute_reachable_nodes g seed = .ok (1 + count1 m2, m2) ∧
      m2.length = num_nodes g ∧
      (∀ j, m2.getD j 0 = 0 ∨ m2.getD j 0 = 1) ∧
      (∀ u, m2.getD u 0 = 1 ↔ Reach g seed u) := by
  obtain ⟨hlen, hheads, hsym⟩ := hWF
  have hheadsD : ∀ u, ∀ a ∈ g.adjacency_lists.getD u [],
      a.head_node_id < (List.replicate (num_nodes g) (0 : Nat)).length := by
    intro u a hai
    rw [List.length_replicate]
    by_cases hu : u < g.adjacency_lists.length
    · exact hheads u hu a hai
    · rw [List.getD_eq_default _ _ (by omega)] at hai
      simp at hai
  obtain ⟨c2, m2, heq, hlen2, h012, hcnt2, _, hpend2, hclosF, hsoundF⟩ :=
    bfsLoop_spec g seed (num_nodes g + 2)
      (List.replicate (num_nodes g) 0) 1 [seed]
      (by simp [count1_replicate])
      (by rw [List.length_replicate]; exact hlen)
      hheadsD
      (fun j => Or.inl (getD_replicate_zero _ j))
      (by intro x hx; simp at hx; subst hx; simpa using hseed)
      (by simp [count1_replicate])
      (by
        intro u hu
        rw [getD_replicate_zero] at hu
        cases hu)
      (by
        intro j hj
        rw [getD_replicate_zero] at hj
        cases hj)
      (by
        intro p hp
        simp at hp
        subst hp
        exact Relation.ReflTransGen.refl)
  rw [hcnt2] at heq
  refine ⟨m2, ?_, by rw [hlen2, List.length_replicate], h012, ?_⟩
  · rw [compute_reachable_nodes]
    exact heq
  · intro u
    constructor
    · exact hsoundF u
    · intro hr
      induction hr with
      | refl => exact hpend2 seed (by simp)
      | @tail b c hst hedge ihr =>
        obtain ⟨a, ha, rfl⟩ := hedge
        exact hclosF b ihr a ha

theorem card_filter_range (l : List Nat) :
    ((Finset.range l.length).filter (fun j => l.getD j 0 = 1)).card =
      count1 l := by
  induction l with
  | nil => simp [count1]
  | cons a t ih =>
    have hsum : ∑ i ∈ Finset.range t.length,
        (if t.getD i 0 = 1 then 1 else 0) = count1 t := by
      rw [← Finset.card_filter]
      exact ih
    rw [Finset.card_filter, List.length_cons, Finset.sum_range_succ']
    simp only [List.getD_cons_succ, List.getD_cons_zero]
    rw [hsum]
    simp only [count1, List.count_cons]
    by_cases ha : a = 1
    · simp [ha]
    · simp [ha, Ne.symm ha]

theorem ncard_ones (l : List Nat) :
    Set.ncard {u | l.getD u 0 = 1} = count1 l := by
  have hset : {u | l.getD u 0 = 1} =
      ↑((Finset.range l.length).filter (fun j => l.getD j 0 = 1)) := by
    ext u
    simp only [Set.mem_setOf_eq, Finset.coe_filter, Finset.mem_range]
    constructor
    · intro hu
      refine ⟨?_, hu⟩
      by_contra hge
      rw [List.getD_eq_default _ _ (by omega)] at hu
      cases hu
    · exact fun hu => hu.2
  rw [hset, Set.ncard_coe_Finset, card_filter_range]

/-- The inner membership/marking loop of `compute_lcc`: it only sets
"visited" flags on reachable indices above the seed, and the member list it
builds is a repetition of the outer index. -/
theorem lccInner_spec (i nm lcc0 : Nat) (reachable : List Nat) :
    ∀ (js : List Nat) (unv mk : List Nat),
      ∃ unv1 mk1,
        lccInner i nm lcc0 reachable (unv, mk) js = (unv1, mk1) ∧
        (∀ j, unv1.getD j 0 = 1 →
          unv.getD j 0 = 1 ∨ (i < j ∧ reachable.getD j 0 ≠ 0)) ∧
        (∃ c, mk1 = mk ++ List.replicate c i) := by
  intro js
  induction js with
  | nil =>
    intro unv mk
    exact ⟨unv, mk, rfl, fun j hj => Or.inl hj, ⟨0, by simp⟩⟩
  | cons j rest ihj =>
    intro unv mk
    rw [lccInner]
    by_cases hr : reachable.getD j 0 = 0
    · rw [if_pos hr]
      exact ihj unv mk
    · rw [if_neg hr]
      obtain ⟨unv1, mk1, heq, hinv, c, hc⟩ :=
        ihj (if i < j then unv.set j 1 else unv)
          (if lcc0 < nm then mk ++ [i] else mk)
      refine ⟨unv1, mk1, heq, ?_, ?_⟩
      · intro j2 hj2
        rcases hinv j2 hj2 with hh | hh
        · by_cases hij : i < j
          · rw [if_pos hij] at hh
            rcases getD_set_cases unv j j2 1 with h2 | ⟨rfl, _, _⟩
            · rw [h2] at hh
              exact Or.inl hh
            · exact Or.inr ⟨hij, hr⟩
          · rw [if_neg hij] at hh
            exact Or.inl hh
        · exact Or.inr hh
      · by_cases hpu : lcc0 < nm
        · rw [if_pos hpu] at hc
          exact ⟨c + 1, by
            rw [hc, List.append_assoc]
            simp [List.replicate_succ]⟩
        · rw [if_neg hpu] at hc
          exact ⟨c, hc⟩

/-- Reduction of `lccStep` once the flood-fill result is known. -/
theorem lccStep_ok_reduce (g : Graph) (st : LccState) (i nm : Nat)
    (reachable : List Nat) (hu : ¬(st.unvisited.getD i 0 = 1))
    (h : compute_reachable_nodes g i = .ok (nm, reachable)) :
    lccStep g st i =
      (if nm = 0 then .ok st
       else
        let p := lccInner i nm st.lcc.fst reachable (st.unvisited, [])
          (List.range (num_nodes g))
        if st.lcc.fst < nm then
          .ok { unvisited := p.fst, marked_nodes := p.snd, lcc := (nm, p.snd) }
        else
          .ok { unvisited := p.fst, marked_nodes := p.snd, lcc := st.lcc }) := by
  rw [lccStep, if_neg hu, h]

/-- One outer-scan iteration of `compute_lcc`: preserves the scan invariants,
never decreases the recorded size, and after scanning a minimal seed the
recorded size dominates that seed's component cardinality. -/
theorem lccStep_spec (g : Graph) (hWF : WellFormed g) {i : Nat}
    (hi : i < num_nodes g) {st : LccState}
    (hinv : ∀ j, st.unvisited.getD j 0 = 1 → ∃ i2, i2 < j ∧ Reach g i2 j)
    (hrep : ∃ c i0, st.lcc.snd = List.replicate c i0) :
    ∃ st1, lccStep g st i = .ok st1 ∧
      (∀ j, st1.unvisited.getD j 0 = 1 → ∃ i2, i2 < j ∧ Reach g i2 j) ∧
      (∃ c i0, st1.lcc.snd = List.replicate c i0) ∧
      st.lcc.fst ≤ st1.lcc.fst ∧
      ((∀ i2, i2 < i → ¬ Reach g i2 i) →
        Set.ncard {u | Reach g i u} ≤ st1.lcc.fst) := by
  by_cases hu : st.unvisited.getD i 0 = 1
  · rw [lccStep, if_pos hu]
    refine ⟨st, rfl, hinv, hrep, Nat.le_refl _, ?_⟩
    intro hmin
    obtain ⟨i2, hlt, hr⟩ := hinv i hu
    exact absurd hr (hmin i2 hlt)
  · obtain ⟨m2, heq, hlen2, h012, hiff⟩ := compute_reachable_nodes_spec g hWF hi
    rw [lccStep_ok_reduce g st i _ _ hu heq, if_neg (by omega)]
    obtain ⟨unv1, mk1, hinner, hinv1, c, hc⟩ :=
      lccInner_spec i (1 + count1 m2) st.lcc.fst m2 (List.range (num_nodes g))
        st.unvisited []
    have hcard : Set.ncard {u | Reach g i u} = count1 m2 := by
      have hsetEq : {u | Reach g i u} = {u | m2.getD u 0 = 1} := by
        ext u
        exact (hiff u).symm
      rw [hsetEq, ncard_ones]
    have hinvNew : ∀ j, unv1.getD j 0 = 1 → ∃ i2, i2 < j ∧ Reach g i2 j := by
      intro j hj
      rcases hinv1 j hj with hh | ⟨hij, hne⟩
      · exact hinv j hh
      · refine ⟨i, hij, ?_⟩
        rcases h012 j with h2 | h2
        · exact absurd h2 hne
        · exact (hiff j).mp h2
    simp only [hinner]
    by_cases hlt2 : st.lcc.fst < 1 + count1 m2
    · rw [if_pos hlt2]
      refine ⟨_, rfl, hinvNew, ⟨c, i, by simpa using hc⟩, ?_, ?_⟩
      · show st.lcc.fst ≤ 1 + count1 m2
        omega
      · intro _
        rw [hcard]
        show count1 m2 ≤ 1 + count1 m2
        omega
    · rw [if_neg hlt2]
      refine ⟨_, rfl, hinvNew, hrep, Nat.le_refl _, ?_⟩
      intro _
      rw [hcard]
      show count1 m2 ≤ st.lcc.fst
      omega

/-- The outer scan of `compute_lcc` over any index list. -/
theorem lccLoop_spec (g : Graph) (hWF : WellFormed g) :
    ∀ (l : List Nat) (st : LccState),
      (∀ x ∈ l, x < num_nodes g) →
      (∀ j, st.unvisited.getD j 0 = 1 → ∃ i2, i2 < j ∧ Reach g i2 j) →
      (∃ c i0, st.lcc.snd = List.replicate c i0) →
      ∃ st2, lccLoop g st l = .ok st2 ∧
        (∃ c i0, st2.lcc.snd = List.replicate c i0) ∧
        st.lcc.fst ≤ st2.lcc.fst ∧
        (∀ m ∈ l, (∀ i2, i2 < m → ¬ Reach g i2 m) →
          Set.ncard {u | Reach g m u} ≤ st2.lcc.fst) := by
  intro l
  induction l with
  | nil =>
    intro st _ hinv hrep
    exact ⟨st, rfl, hrep, Nat.le_refl _, by simp⟩
  | cons i rest ihl =>
    intro st hl hinv hrep
    obtain ⟨st1, heq1, hinv1, hrep1, hle1, hmin1⟩ :=
      lccStep_spec g hWF (hl i (by simp)) hinv hrep
    obtain ⟨st2, heq2, hrep2, hle2, hmin2⟩ :=
      ihl st1 (fun x hx => hl x (by simp [hx])) hinv1 hrep1
    refine ⟨st2, ?_, hrep2, Nat.le_trans hle1 hle2, ?_⟩
    · rw [lccLoop, heq1]
      exact heq2
    · intro m hm hmin
      rcases List.mem_cons.mp hm with rfl | hm2
      · exact Nat.le_trans (hmin1 hmin) hle2
      · exact hmin2 m hm2 hmin

/-- C9 (amended): after a successful load, each node's stored id is exactly
the integer declared in the first field of its node line, in file order (the
loader never validates ids); consequently the ids form the contiguous range
`[0, node_count)` with id = position precisely when the input declares them
that way. -/
theorem node_ids_match_declared (lines : List String) (g : Graph)
    (h : read_lines emptyGraph lines = .ok g) :
    g.nodes.map Node.id = declaredNodeIds lines ∧
    (declaredNodeIds lines = List.range (declaredNodeIds lines).length →
      g.nodes.map Node.id = List.range (num_nodes g)) := by
  have hmain : g.nodes.map Node.id = declaredNodeIds lines := by
    unfold read_lines at h
    cases hr : readLinesAux
        { line_number := 0, total_line_number := 0, node_count := 0,
          arc_count := 0, graph := emptyGraph } lines with
    | ok sF =>
      rw [hr] at h
      injection h with he
      subst he
      have hids := readLinesAux_nodes_h0 lines _ sF rfl hr
      simpa [declaredNodeIds, declaredNodeCount, emptyGraph] using hids
    | error e => rw [hr] at h; cases h
    | panic m => rw [hr] at h; cases h
  refine ⟨hmain, fun hrange => ?_⟩
  have hlen : num_nodes g = (declaredNodeIds lines).length := by
    rw [num_nodes, ← List.length_map g.nodes Node.id, hmain]
  rw [hmain, hlen]
  exact hrange

/-- C9 amended-claim witness at a concrete input. -/
theorem node_ids_match_declared_witness :
    gSingleLoop.nodes.map Node.id =
      declaredNodeIds ["1", "1", "0 0.0 0.0", "0 0 5 5"] ∧
    (declaredNodeIds ["1", "1", "0 0.0 0.0", "0 0 5 5"] =
        List.range (declaredNodeIds ["1", "1", "0 0.0 0.0", "0 0 5 5"]).length →
      gSingleLoop.nodes.map Node.id = List.range (num_nodes gSingleLoop)) :=
  node_ids_match_declared ["1", "1", "0 0.0 0.0", "0 0 5 5"] gSingleLoop
    (by decide)

/-- C8: every `FormatError` a load reports carries the 1-based total line
number of the offending line (counted over all lines, blanks and comments
included) and names the invalid-node / invalid-arc / additional-lines case,
arising only from a structural violation; and at every stage a numeric field
that fails to parse yields exactly the `ParseIntError` resp.
`ParseFloatError` kind. -/
theorem parse_failures_keep_their_kind :
    (∀ (lines : List String) (m : String),
      read_lines emptyGraph lines = .error (.FormatError m) →
      ∃ k, k < lines.length ∧
        lineSkipped (trimChars (lines.getD k "").toList) = false ∧
        ((m = msgInvalidNode (k + 1) ∧
            (splitChar ' ' (trimChars (lines.getD k "").toList)).length ≠ 3) ∨
         (m = msgInvalidArc (k + 1) ∧
            (splitChar ' ' (trimChars (lines.getD k "").toList)).length ≠ 4) ∨
         m = msgAdditionalLines (k + 1))) ∧
    (∀ (s : RState) (line : String),
      lineSkipped (trimChars line.toList) = false →
      ((s.line_number = 0 ∨ s.line_number = 1) →
        parseUnsigned ((splitChar ' ' (trimChars line.toList)).getD 0 []) = none →
        processLine s line = .error .ParseIntError) ∧
      (2 ≤ s.line_number → s.line_number < s.node_count + 2 →
        (splitChar ' ' (trimChars line.toList)).length = 3 →
        (parseUnsigned ((splitChar ' ' (trimChars line.toList)).getD 0 []) = none →
          processLine s line = .error .ParseIntError) ∧
        (parseUnsigned ((splitChar ' ' (trimChars line.toList)).getD 0 []) ≠ none →
          (isF64Lit ((splitChar ' ' (trimChars line.toList)).getD 1 []) = false ∨
            isF64Lit ((splitChar ' ' (trimChars line.toList)).getD 2 []) = false) →
          processLine s line = .error .ParseFloatError)) ∧
      (s.node_count + 2 ≤ s.line_number →
        s.line_number < s.node_count + s.arc_count + 2 →
        (splitChar ' ' (trimChars line.toList)).length = 4 →
        (parseUnsigned ((splitChar ' ' (trimChars line.toList)).getD 0 []) = none ∨
         parseUnsigned ((splitChar ' ' (trimChars line.toList)).getD 1 []) = none ∨
         parseUnsigned ((splitChar ' ' (trimChars line.toList)).getD 2 []) = none ∨
         parseUnsigned ((splitChar ' ' (trimChars line.toList)).getD 3 []) = none) →
        processLine s line = .error .ParseIntError)) := by
  constructor
  · intro lines m h
    unfold read_lines at h
    cases hr : readLinesAux
        { line_number := 0, total_line_number := 0, node_count := 0,
          arc_count := 0, graph := emptyGraph } lines with
    | ok sF => rw [hr] at h; cases h
    | panic pm => rw [hr] at h; cases h
    | error e =>
      rw [hr] at h
      injection h with he
      subst he
      simpa using readLinesAux_formatError lines _ m hr
  · intro s line h0
    have hne : splitChar ' ' (trimChars line.toList) ≠ [] := by
      have := splitChar_length_pos ' ' (trimChars line.toList)
      exact List.ne_nil_of_length_pos this
    simp only [String.toList] at h0 hne
    refine ⟨?_, ?_, ?_⟩
    · rintro (hl | hl) hparse <;>
        simp only [String.toList, List.getD_eq_getElem?_getD] at hparse <;>
        simp [processLine, h0, hne, hl, hparse]
    · intro hge hlt hlen3
      simp only [String.toList] at hlen3
      have e1 : ¬(s.line_number + 1 = 1) := by omega
      have e2 : ¬(s.line_number + 1 = 2) := by omega
      have e3 : s.line_number + 1 < s.node_count + 3 := by omega
      constructor
      · intro hparse
        simp only [String.toList, List.getD_eq_getElem?_getD] at hparse
        simp [processLine, h0, hne, e1, e2, e3, hparse]
        exact hlen3
      · intro hsome hor
        obtain ⟨nid, hnid⟩ := Option.ne_none_iff_exists.mp hsome
        simp only [String.toList, List.getD_eq_getElem?_getD] at hnid
        simp only [String.toList, List.getD_eq_getElem?_getD] at hor
        rcases hor with hf | hf
        · simp [processLine, h0, hne, e1, e2, e3, ← hnid, hf]
          exact hlen3
        · cases hp1 : isF64Lit ((splitChar ' ' (trimChars line.data)).getD 1 []) with
          | false =>
            simp only [List.getD_eq_getElem?_getD] at hp1
            simp [processLine, h0, hne, e1, e2, e3, ← hnid, hp1]
            exact hlen3
          | true =>
            simp only [List.getD_eq_getElem?_getD] at hp1
            simp [processLine, h0, hne, e1, e2, e3, ← hnid, hp1, hf]
            exact hlen3
    · intro hge hlt hlen4 hor
      simp only [String.toList] at hlen4
      have e1 : ¬(s.line_number + 1 = 1) := by omega
      have e2 : ¬(s.line_number + 1 = 2) := by omega
      have e3 : ¬(s.line_number + 1 < s.node_count + 3) := by omega
      have e4 : s.line_number + 1 < s.node_count + s.arc_count + 3 := by omega
      simp only [String.toList, List.getD_eq_getElem?_getD] at hor
      cases hq0 : parseUnsigned ((splitChar ' ' (trimChars line.data))[0]?.getD []) with
      | none =>
        simp [processLine, h0, hne, e1, e2, e3, e4, hq0]
        exact hlen4
      | some a0 =>
        cases hq1 : parseUnsigned ((splitChar ' ' (trimChars line.data))[1]?.getD []) with
        | none =>
          simp [processLine, h0, hne, e1, e2, e3, e4, hq0, hq1]
          exact hlen4
        | some a1 =>
          cases hq2 : parseUnsigned ((splitChar ' ' (trimChars line.data))[2]?.getD []) with
          | none =>
            simp [processLine, h0, hne, e1, e2, e3, e4, hq0, hq1, hq2]
            exact hlen4
          | some a2 =>
            cases hq3 : parseUnsigned ((splitChar ' ' (trimChars line.data))[3]?.getD []) with
            | none =>
              simp [processLine, h0, hne, e1, e2, e3, e4, hq0, hq1, hq2, hq3]
              exact hlen4
            | some a3 => simp [hq0, hq1, hq2, hq3] at hor

/-- C8 witness: the arc line `"9"` (1 field) of an otherwise good input is
reported as the invalid-arc case at total line 4; and the first content line
`"x"` fails with `ParseIntError`. -/
theorem parse_failures_keep_their_kind_witness :
    (∃ k, k < (["1", "1", "0 0.0 0.0", "9"] : List String).length ∧
      lineSkipped (trimChars ((["1", "1", "0 0.0 0.0", "9"] : List String).getD k "").toList) = false ∧
      (("Invalid graph file! (Invalid arc, line 4)" : String) = msgInvalidNode (k + 1) ∧
          (splitChar ' ' (trimChars ((["1", "1", "0 0.0 0.0", "9"] : List String).getD k "").toList)).length ≠ 3 ∨
       ("Invalid graph file! (Invalid arc, line 4)" : String) = msgInvalidArc (k + 1) ∧
          (splitChar ' ' (trimChars ((["1", "1", "0 0.0 0.0", "9"] : List String).getD k "").toList)).length ≠ 4 ∨
       ("Invalid graph file! (Invalid arc, line 4)" : String) = msgAdditionalLines (k + 1))) ∧
    processLine
      { line_number := 0, total_line_number := 0, node_count := 0,
        arc_count := 0, graph := emptyGraph } "x" = .error .ParseIntError :=
  ⟨parse_failures_keep_their_kind.1 ["1", "1", "0 0.0 0.0", "9"]
      "Invalid graph file! (Invalid arc, line 4)" (by decide),
   (parse_failures_keep_their_kind.2
      { line_number := 0, total_line_number := 0, node_count := 0,
        arc_count := 0, graph := emptyGraph } "x" (by decide)).1
      (Or.inl rfl) (by decide)⟩

theorem take28_msgInvalidNode (t : Nat) :
    ((msgInvalidNode t).data.take 28 ==
      "Invalid graph file! (general".data) = false := by
  have h1 : (msgInvalidNode t).data =
      "Invalid graph file! (Invalid node, line ".data ++
        ((Nat.repr t).data ++ ")".data) := by
    simp [msgInvalidNode, String.data_append, List.append_assoc]
  rw [h1, List.take_append_of_le_length (by decide)]
  decide

theorem take28_msgInvalidArc (t : Nat) :
    ((msgInvalidArc t).data.take 28 ==
      "Invalid graph file! (general".data) = false := by
  have h1 : (msgInvalidArc t).data =
      "Invalid graph file! (Invalid arc, line ".data ++
        ((Nat.repr t).data ++ ")".data) := by
    simp [msgInvalidArc, String.data_append, List.append_assoc]
  rw [h1, List.take_append_of_le_length (by decide)]
  decide

theorem take28_msgAdditionalLines (t : Nat) :
    ((msgAdditionalLines t).data.take 28 ==
      "Invalid graph file! (general".data) = false := by
  have h1 : (msgAdditionalLines t).data =
      "Invalid graph file! (Additional lines, line ".data ++
        ((Nat.repr t).data ++ ")".data) := by
    simp [msgAdditionalLines, String.data_append, List.append_assoc]
  rw [h1, List.take_append_of_le_length (by decide)]
  decide

/-- C10: no input can ever produce the "general" `FormatError`: splitting a
trimmed content line on a single space always yields at least one field, so
the fewer-than-one-field check is unreachable and every load outcome fails
the general-message test. -/
theorem general_format_error_unreachable (lines : List String) :
    generalErrored (read_lines emptyGraph lines) = false := by
  cases hr : read_lines emptyGraph lines with
  | ok g => simp [generalErrored]
  | panic m => simp [generalErrored]
  | error e =>
    cases e with
    | IoError => simp [generalErrored]
    | ParseIntError => simp [generalErrored]
    | ParseFloatError => simp [generalErrored]
    | ZipError => simp [generalErrored]
    | FormatError m =>
      unfold read_lines at hr
      cases hq : readLinesAux
          { line_number := 0, total_line_number := 0, node_count := 0,
            arc_count := 0, graph := emptyGraph } lines with
      | ok sF => rw [hq] at hr; cases hr
      | panic pm => rw [hq] at hr; cases hr
      | error e2 =>
        rw [hq] at hr
        injection hr with he
        subst he
        obtain ⟨k, _, _, hcase⟩ := readLinesAux_formatError lines _ m hq
        rcases hcase with ⟨hm, _⟩ | ⟨hm, _⟩ | hm
        · simpa [generalErrored, hm] using take28_msgInvalidNode (k + 1)
        · simpa [generalErrored, hm] using take28_msgInvalidArc (k + 1)
        · simp only [Nat.add_zero] at hm
          simpa [generalErrored, hm] using take28_msgAdditionalLines (k + 1)

/-- C4 counterexample: the claim, as stated over every *built* graph, is
false: the input declaring 2 nodes and the self-loop arc `0 0 5 5` loads
successfully (the loop fits into the single `arc_count`-sized bucket), yet
`compute_lcc()` returns nothing at all — flood-filling node 1 indexes
`adjacency_lists[1]` in a 1-bucket table and panics. -/
theorem compute_lcc_panics_on_built_graph :
    read_lines emptyGraph ["2", "1", "0 0.0 0.0", "1 1.0 1.0", "0 0 5 5"] =
      .ok gBuiltPanic ∧
    compute_lcc gBuiltPanic = .panic "index out of bounds" := by
  decide

/-- C4 (amended): on every *well-formed* graph — one adjacency bucket per
node id, arc heads below `node_count`, arcs stored in both directions, the
shape the loader is meant to build — `compute_lcc()` succeeds, the size it
returns is at least the cardinality of every connected component (the set of
nodes reachable from any `v < node_count`), and every pair of listed member
ids is mutually reachable (the member list repeats the winning scan index,
and reachability is reflexive). -/
theorem compute_lcc_dominates_components (g : Graph) (h : WellFormed g) :
    ∃ sz mem, compute_lcc g = .ok (sz, mem) ∧
      (∀ v, v < num_nodes g → Set.ncard {u | Reach g v u} ≤ sz) ∧
      (∀ a ∈ mem, ∀ b ∈ mem, Reach g a b) := by
  obtain ⟨st2, heq, ⟨c, i0, hrep⟩, _, hmin⟩ :=
    lccLoop_spec g h (List.range (num_nodes g))
      { unvisited := List.replicate (num_nodes g) 0, marked_nodes := [],
        lcc := (0, []) }
      (fun x hx => List.mem_range.mp hx)
      (by
        intro j hj
        rw [getD_replicate_zero] at hj
        cases hj)
      ⟨0, 0, rfl⟩
  refine ⟨st2.lcc.fst, st2.lcc.snd, ?_, ?_, ?_⟩
  · rw [compute_lcc, heq]
  · intro v hv
    haveI : DecidablePred (fun k => Reach g v k) := fun k => Classical.dec _
    have hex : ∃ k, Reach g v k := ⟨v, Relation.ReflTransGen.refl⟩
    have hm : Reach g v (Nat.find hex) := Nat.find_spec hex
    have hmlt : Nat.find hex < num_nodes g := Reach_lt h hv hm
    have hminimal : ∀ i2, i2 < Nat.find hex → ¬ Reach g i2 (Nat.find hex) := by
      intro i2 hi2 hri
      have hv2 : Reach g v i2 :=
        Relation.ReflTransGen.trans hm (Reach_symm h hri)
      exact Nat.find_min hex hi2 hv2
    have hdom := hmin (Nat.find hex) (List.mem_range.mpr hmlt) hminimal
    have hsub : {u | Reach g v u} ⊆ {u | Reach g (Nat.find hex) u} := by
      intro u hu
      exact Relation.ReflTransGen.trans (Reach_symm h hm) hu
    have hfin : {u | Reach g (Nat.find hex) u}.Finite := by
      refine (Set.finite_Iio (num_nodes g)).subset ?_
      intro u hu
      exact Reach_lt h hmlt hu
    exact Nat.le_trans (Set.ncard_le_ncard hsub hfin) hdom
  · intro a ha b hb
    rw [hrep] at ha hb
    rw [List.eq_of_mem_replicate ha, List.eq_of_mem_replicate hb]
    exact Relation.ReflTransGen.refl

/-- C4 witness: the theorem instantiated on the hand-built well-formed graph
`gWitness`. -/
theorem compute_lcc_dominates_components_witness :
    WellFormed gWitness ∧
    ∃ sz mem, compute_lcc gWitness = .ok (sz, mem) ∧
      (∀ v, v < num_nodes gWitness →
        Set.ncard {u | Reach gWitness v u} ≤ sz) ∧
      (∀ a ∈ mem, ∀ b ∈ mem, Reach gWitness a b) :=
  ⟨by decide, compute_lcc_dominates_components gWitness (by decide)⟩

end Ex13
